import Mathlib

/-!
Verification of the `fence` rate-limiter crate (src/lib.rs).

Shallow embedding: `std::time::Instant` and `std::time::Duration` are both
modelled as `Nat` nanosecond counts. The impure clock reads
(`Instant::now()`) performed by each operation become explicit arguments:
`allow` reads the clock once, so it takes one sample `now`; `sleep` reads
the clock twice (once before the conditional wait, once after it, to
re-arm), so it takes two samples `now` and `now2`. The guarantee of
`thread::sleep` — the thread is suspended for at least the requested
duration — together with clock monotonicity is captured by the validity
condition `now + sleepWait f now ≤ now2` on the second sample.
-/

/-- `std::time::Duration::from_secs`, as a nanosecond count. -/
def durationFromSecs (s : Nat) : Nat := s * 1000000000

/-- `std::time::Duration::from_millis`, as a nanosecond count. -/
def durationFromMillis (m : Nat) : Nat := m * 1000000

/-- The `Fence` struct: a fixed interval and a mutable watermark
(`block_until`), both in nanoseconds. -/
structure Fence where
  duration : Nat
  block_until : Nat
  deriving Repr, DecidableEq

namespace Fence

/-- `Fence::from_duration`: stores the interval and initializes the
watermark to the construction-time clock sample plus the interval. -/
def from_duration (dur : Nat) (now : Nat) : Fence :=
  { duration := dur, block_until := now + dur }

/-- `Fence::from_secs`. -/
def from_secs (s : Nat) (now : Nat) : Fence :=
  from_duration (durationFromSecs s) now

/-- `Fence::from_millis`. -/
def from_millis (m : Nat) (now : Nat) : Fence :=
  from_duration (durationFromMillis m) now

/-- The amount of time `Fence::sleep` asks `thread::sleep` to suspend the
thread for: `block_until.duration_since(now)` when `now < block_until`,
and nothing (no suspension at all) otherwise. -/
def sleepWait (f : Fence) (now : Nat) : Nat :=
  if now < f.block_until then f.block_until - now else 0

/-- `Fence::sleep`: after the conditional suspension, re-arms the
watermark from a fresh clock sample `now2` taken after the wait. -/
def sleep (f : Fence) (now2 : Nat) : Fence :=
  { f with block_until := now2 + f.duration }

/-- `Fence::allow`: reads one clock sample `now`; if `now < block_until`
returns `false` leaving the fence untouched, otherwise re-arms the
watermark to `now + duration` and returns `true`. -/
def allow (f : Fence) (now : Nat) : Bool × Fence :=
  if now < f.block_until then (false, f)
  else (true, { f with block_until := now + f.duration })

end Fence

/-- One observable operation on a fence, with the clock samples it reads:
a `sleep` call (two samples) or an `allow` call (one sample). -/
inductive FenceOp where
  | sleepCall (now now2 : Nat)
  | allowCall (now : Nat)
  deriving Repr, DecidableEq

/-- Run one operation: returns the new fence state and the observable
result (`none` for `sleep`, the returned boolean for `allow`). -/
def stepOp (f : Fence) : FenceOp → Fence × Option Bool
  | .sleepCall _ n2 => (Fence.sleep f n2, none)
  | .allowCall n => ((Fence.allow f n).2, some (Fence.allow f n).1)

/-- Run a sequence of operations, collecting the observable results. -/
def runOps (f : Fence) : List FenceOp → Fence × List (Option Bool)
  | [] => (f, [])
  | op :: rest =>
    ((runOps (stepOp f op).1 rest).1, (stepOp f op).2 :: (runOps (stepOp f op).1 rest).2)

/-- Run a sequence of `allow` calls at the given clock samples, collecting
the returned booleans. -/
def allowRun (f : Fence) : List Nat → Fence × List Bool
  | [] => (f, [])
  | n :: rest =>
    ((allowRun (Fence.allow f n).2 rest).1,
     (Fence.allow f n).1 :: (allowRun (Fence.allow f n).2 rest).2)

/-- Run a sequence of `sleep` calls; each list element carries the two
clock samples of one call. -/
def sleepRun (f : Fence) : List (Nat × Nat) → Fence
  | [] => f
  | p :: rest => sleepRun (Fence.sleep f p.2) rest

/-- Validity of the clock samples of a sequence of `sleep` calls: the
post-wait sample `p.2` of each call is at least the pre-wait sample `p.1`
plus the requested suspension (`thread::sleep` suspends for at least the
requested duration and the clock is monotone). -/
def validSleeps (f : Fence) : List (Nat × Nat) → Bool
  | [] => true
  | p :: rest =>
    decide (p.1 + Fence.sleepWait f p.1 ≤ p.2) && validSleeps (Fence.sleep f p.2) rest

/-- The last post-wait clock sample of a sequence of `sleep` calls,
defaulting to `t` for the empty sequence. -/
def lastSample (t : Nat) : List (Nat × Nat) → Nat
  | [] => t
  | p :: rest => lastSample p.2 rest

/-- A list of clock samples is nondecreasing and starts at or after `t`. -/
def nondecreasingFrom (t : Nat) : List Nat → Bool
  | [] => true
  | n :: rest => decide (t ≤ n) && nondecreasingFrom n rest

/-- C1: `allow` reads one clock sample `now`; when `now` is strictly
before the watermark it returns `false` and leaves the fence unchanged;
when `now` is at or after the watermark it sets the watermark to
`now + interval` (from that same sample) and returns `true`.
Consequently, once `allow` returns `true` at instant `t`, a subsequent
`allow` at any `t' < t + interval` returns `false` and at any
`t' ≥ t + interval` returns `true`. -/
theorem allow_semantics_and_rearm (f : Fence) (now : Nat) :
    (now < f.block_until → Fence.allow f now = (false, f)) ∧
    (f.block_until ≤ now →
      Fence.allow f now =
        (true, { duration := f.duration, block_until := now + f.duration })) ∧
    (∀ t', (Fence.allow f now).1 = true →
      (t' < now + f.duration → (Fence.allow (Fence.allow f now).2 t').1 = false) ∧
      (now + f.duration ≤ t' → (Fence.allow (Fence.allow f now).2 t').1 = true)) := by
  refine ⟨fun h => ?_, fun h => ?_, fun t' ht => ⟨fun h1 => ?_, fun h2 => ?_⟩⟩
  · simp [Fence.allow, h]
  · simp [Fence.allow, Nat.not_lt.mpr h]
  · rcases Nat.lt_or_ge now f.block_until with hlt | hge
    · simp [Fence.allow, hlt] at ht
    · simp [Fence.allow, Nat.not_lt.mpr hge, h1]
  · rcases Nat.lt_or_ge now f.block_until with hlt | hge
    · simp [Fence.allow, hlt] at ht
    · simp [Fence.allow, Nat.not_lt.mpr hge, Nat.not_lt.mpr h2]

/-- Witness for C1 at a concrete fence: interval 10, watermark 10; a call
at 4 is denied, a call at 12 re-arms to 22 and the next call at 21 is
denied while one at 22 passes. -/
theorem allow_semantics_and_rearm_witness :
    Fence.allow ⟨10, 10⟩ 4 = (false, ⟨10, 10⟩) ∧
    Fence.allow ⟨10, 10⟩ 12 = (true, ⟨10, 22⟩) ∧
    (Fence.allow (Fence.allow ⟨10, 10⟩ 12).2 21).1 = false ∧
    (Fence.allow (Fence.allow ⟨10, 10⟩ 12).2 22).1 = true :=
  ⟨(allow_semantics_and_rearm ⟨10, 10⟩ 4).1 (by decide),
   (allow_semantics_and_rearm ⟨10, 10⟩ 12).2.1 (by decide),
   ((allow_semantics_and_rearm ⟨10, 10⟩ 12).2.2 21 (by decide)).1 (by decide),
   ((allow_semantics_and_rearm ⟨10, 10⟩ 12).2.2 22 (by decide)).2 (by decide)⟩

/-- C2: `sleep` reads a clock sample `now`; when `now` is strictly before
the watermark the requested suspension is exactly `watermark - now`, and
when `now` is at or after the watermark no suspension is requested at all
(the call returns immediately); in either case it re-arms the watermark to
the fresh post-wait sample `now2` plus the interval — a value independent
of the old watermark, never the old watermark as base. -/
theorem sleep_semantics (f : Fence) (now now2 : Nat) :
    (now < f.block_until → Fence.sleepWait f now = f.block_until - now) ∧
    (f.block_until ≤ now → Fence.sleepWait f now = 0) ∧
    Fence.sleep f now2 =
      { duration := f.duration, block_until := now2 + f.duration } := by
  refine ⟨fun h => ?_, fun h => ?_, rfl⟩
  · simp [Fence.sleepWait, h]
  · simp [Fence.sleepWait, Nat.not_lt.mpr h]

/-- Witness for C2 at a concrete fence: interval 10, watermark 30; a call
sampling 12 requests an 18-unit suspension; one sampling 30 requests none;
re-arming from post-wait sample 31 yields watermark 41. -/
theorem sleep_semantics_witness :
    Fence.sleepWait ⟨10, 30⟩ 12 = 18 ∧
    Fence.sleepWait ⟨10, 30⟩ 30 = 0 ∧
    Fence.sleep ⟨10, 30⟩ 31 = ⟨10, 41⟩ :=
  ⟨(sleep_semantics ⟨10, 30⟩ 12 31).1 (by decide),
   (sleep_semantics ⟨10, 30⟩ 30 31).2.1 (by decide),
   (sleep_semantics ⟨10, 30⟩ 12 31).2.2⟩

/-- C4: construction with interval `d` at clock sample `tc` sets the
watermark to `tc + d`, so the first `allow` call returns `false` when its
sample is before `tc + d` (before `d` has elapsed since construction) and
`true` once its sample is at or after `tc + d`; there is no special case
letting the first call pass immediately. -/
theorem first_allow_after_construction (d tc now : Nat) :
    (Fence.from_duration d tc).block_until = tc + d ∧
    (now < tc + d → (Fence.allow (Fence.from_duration d tc) now).1 = false) ∧
    (tc + d ≤ now → (Fence.allow (Fence.from_duration d tc) now).1 = true) := by
  refine ⟨rfl, fun h => ?_, fun h => ?_⟩
  · simp [Fence.allow, Fence.from_duration, h]
  · simp [Fence.allow, Fence.from_duration, Nat.not_lt.mpr h]

/-- Witness for C4: a fence built with interval 50 at instant 100 has
watermark 150; `allow` at 110 is denied, `allow` at 160 passes. -/
theorem first_allow_after_construction_witness :
    (Fence.from_duration 50 100).block_until = 150 ∧
    (Fence.allow (Fence.from_duration 50 100) 110).1 = false ∧
    (Fence.allow (Fence.from_duration 50 100) 160).1 = true :=
  ⟨(first_allow_after_construction 50 100 110).1,
   (first_allow_after_construction 50 100 110).2.1 (by decide),
   (first_allow_after_construction 50 100 160).2.2 (by decide)⟩

/-- C9: construction is total over every representable non-negative
duration — for every `Nat` duration `d` (no upper bound) and every
construction instant, `from_duration` succeeds and yields the fence with
interval `d` and watermark `now + d`; there is no failure condition. -/
theorem from_duration_total (d now : Nat) :
    (Fence.from_duration d now).duration = d ∧
    (Fence.from_duration d now).block_until = now + d :=
  ⟨rfl, rfl⟩

/-- Helper: when `allow` returns `false` it leaves the fence unchanged. -/
theorem allow_fst_false_frame (f : Fence) (now : Nat)
    (h : (Fence.allow f now).1 = false) : (Fence.allow f now).2 = f := by
  by_cases hlt : now < f.block_until
  · simp [Fence.allow, hlt]
  · simp [Fence.allow, hlt] at h

/-- C6: `allow` mutates the watermark only on a `true` result: a single
`false`-returning call leaves the fence exactly unchanged, and any run of
`allow` calls all of which return `false` leaves the fence exactly
unchanged — the gate opens at the same instant regardless of how many
denied probes preceded it. -/
theorem allow_false_no_mutation (f : Fence) (now : Nat) (ts : List Nat) :
    ((Fence.allow f now).1 = false → (Fence.allow f now).2 = f) ∧
    ((∀ b ∈ (allowRun f ts).2, b = false) → (allowRun f ts).1 = f) := by
  constructor
  · exact allow_fst_false_frame f now
  · induction ts generalizing f with
    | nil => intro _; rfl
    | cons n rest ih =>
      intro h
      have h1 : (Fence.allow f n).1 = false := h _ (by simp [allowRun])
      have h2 : (Fence.allow f n).2 = f := allow_fst_false_frame f n h1
      have h3 : ∀ b ∈ (allowRun (Fence.allow f n).2 rest).2, b = false := by
        intro b hb
        exact h b (by simp [allowRun, hb])
      have := ih (Fence.allow f n).2 h3
      simpa [allowRun, h2] using this

/-- Witness for C6: fence with interval 10 and watermark 10; the call at 5
is denied and leaves the fence unchanged, and the run of denied probes at
1, 2, 3 leaves the fence unchanged. -/
theorem allow_false_no_mutation_witness :
    (Fence.allow ⟨10, 10⟩ 5).2 = ⟨10, 10⟩ ∧
    (allowRun ⟨10, 10⟩ [1, 2, 3]).1 = ⟨10, 10⟩ :=
  ⟨(allow_false_no_mutation ⟨10, 10⟩ 5 [1, 2, 3]).1 (by decide),
   (allow_false_no_mutation ⟨10, 10⟩ 5 [1, 2, 3]).2 (by decide)⟩

/-- C7: constructing via whole seconds, via the equivalent whole
milliseconds, or via the explicit duration of equivalent magnitude yields
literally equal fences, hence observably identical results under every
subsequent sequence of `sleep` and `allow` calls. -/
theorem construction_equivalence (s t : Nat) (ops : List FenceOp) :
    Fence.from_secs s t = Fence.from_millis (1000 * s) t ∧
    Fence.from_secs s t = Fence.from_duration (durationFromSecs s) t ∧
    runOps (Fence.from_secs s t) ops = runOps (Fence.from_millis (1000 * s) t) ops ∧
    runOps (Fence.from_secs s t) ops =
      runOps (Fence.from_duration (durationFromSecs s) t) ops := by
  have hdur : durationFromMillis (1000 * s) = durationFromSecs s := by
    simp [durationFromMillis, durationFromSecs]
    ring
  have h1 : Fence.from_secs s t = Fence.from_millis (1000 * s) t := by
    simp [Fence.from_secs, Fence.from_millis, hdur]
  exact ⟨h1, rfl, by rw [h1], rfl⟩

/-- Helper: the pre-wait sample plus the requested suspension is never
before the watermark. -/
theorem sleepWait_reaches_watermark (f : Fence) (n : Nat) :
    f.block_until ≤ n + Fence.sleepWait f n := by
  by_cases h : n < f.block_until
  · simp [Fence.sleepWait, h]
    omega
  · simp [Fence.sleepWait, h]
    omega

/-- Helper: `sleep` preserves the interval. -/
theorem sleep_duration (f : Fence) (n2 : Nat) :
    (Fence.sleep f n2).duration = f.duration := rfl

/-- Helper for C5: along any valid sequence of `sleep` calls on a fence
whose watermark is at least one interval past the base instant `b`, the
last post-wait clock sample is at least `b` plus one interval per call. -/
theorem lastSample_lower (tr : List (Nat × Nat)) :
    ∀ (f : Fence) (b : Nat), validSleeps f tr = true →
      b + f.duration ≤ f.block_until →
      b + tr.length * f.duration ≤ lastSample b tr := by
  induction tr with
  | nil => intro f b _ _; simp [lastSample]
  | cons p rest ih =>
    intro f b hv hb
    simp only [validSleeps, Bool.and_eq_true, decide_eq_true_eq] at hv
    obtain ⟨hstep, hrest⟩ := hv
    have hwm : f.block_until ≤ p.1 + Fence.sleepWait f p.1 :=
      sleepWait_reaches_watermark f p.1
    have hp2 : b + f.duration ≤ p.2 := le_trans hb (le_trans hwm hstep)
    have hnext : p.2 + (Fence.sleep f p.2).duration ≤ (Fence.sleep f p.2).block_until := by
      simp [Fence.sleep]
    have := ih (Fence.sleep f p.2) p.2 hrest hnext
    simp only [lastSample, List.length_cons]
    have hdur : (Fence.sleep f p.2).duration = f.duration := rfl
    rw [hdur] at this
    calc b + (rest.length + 1) * f.duration
        = (b + f.duration) + rest.length * f.duration := by ring
      _ ≤ p.2 + rest.length * f.duration := by omega
      _ ≤ lastSample p.2 rest := this

/-- C5: for every interval `d` and every valid sequence of `N` consecutive
`sleep` calls on a fence freshly constructed at instant `tc`, the last
post-wait clock sample — the instant at which the `N`-th call returns —
is at least `tc + N * d`: the sequence never completes in less than
`N * d` of wall-clock time measured from construction. -/
theorem sleep_min_total_time (d tc : Nat) (tr : List (Nat × Nat))
    (h : validSleeps (Fence.from_duration d tc) tr = true) :
    tc + tr.length * d ≤ lastSample tc tr := by
  have := lastSample_lower tr (Fence.from_duration d tc) tc h
    (by simp [Fence.from_duration])
  simpa [Fence.from_duration] using this

/-- Witness for C5: interval 10, construction at 0, two sleep calls with
samples (3, 10) and (12, 20): the trace is valid and the second call
returns at 20 ≥ 0 + 2 * 10. -/
theorem sleep_min_total_time_witness :
    validSleeps (Fence.from_duration 10 0) [(3, 10), (12, 20)] = true ∧
    0 + 2 * 10 ≤ lastSample 0 [(3, 10), (12, 20)] :=
  ⟨by decide, sleep_min_total_time 10 0 [(3, 10), (12, 20)] (by decide)⟩

/-- C3 counterexample: on the fence constructed with interval 10 at
instant 0, the `allow` call sampling 5 returns `false` and completes at
instant 5, yet the watermark afterwards is 10, not 5 + 10 — so the
claimed invariant fails for a `false`-returning `allow`. -/
theorem watermark_invariant_cex :
    (Fence.allow (Fence.from_duration 10 0) 5).1 = false ∧
    (Fence.allow (Fence.from_duration 10 0) 5).2.block_until = 10 ∧
    (Fence.allow (Fence.from_duration 10 0) 5).2.block_until ≠ 5 + 10 := by
  decide

/-- C3 amended: immediately after construction, after a `sleep` call, and
after a `true`-returning `allow` call, the watermark equals the instant at
which the operation completed plus the interval; a `false`-returning
`allow` call instead leaves the fence (and hence the watermark) exactly
unchanged. -/
theorem watermark_invariant_amended (d tc n2 now : Nat) (f : Fence) :
    (Fence.from_duration d tc).block_until = tc + d ∧
    (Fence.sleep f n2).block_until = n2 + f.duration ∧
    ((Fence.allow f now).1 = true →
      (Fence.allow f now).2.block_until = now + f.duration) ∧
    ((Fence.allow f now).1 = false → (Fence.allow f now).2 = f) := by
  refine ⟨rfl, rfl, fun h => ?_, allow_fst_false_frame f now⟩
  by_cases hlt : now < f.block_until
  · simp [Fence.allow, hlt] at h
  · simp [Fence.allow, hlt]

/-- Witness for C3 amended: interval 10, watermark 10; the `true` call at
12 leaves watermark 22 = 12 + 10, the `false` call at 4 leaves the fence
unchanged. -/
theorem watermark_invariant_amended_witness :
    (Fence.from_duration 10 0).block_until = 0 + 10 ∧
    (Fence.sleep ⟨10, 10⟩ 15).block_until = 15 + 10 ∧
    (Fence.allow ⟨10, 10⟩ 12).2.block_until = 12 + 10 ∧
    (Fence.allow ⟨10, 10⟩ 4).2 = ⟨10, 10⟩ :=
  ⟨(watermark_invariant_amended 10 0 15 12 ⟨10, 10⟩).1,
   (watermark_invariant_amended 10 0 15 12 ⟨10, 10⟩).2.1,
   (watermark_invariant_amended 10 0 15 12 ⟨10, 10⟩).2.2.1 (by decide),
   (watermark_invariant_amended 10 0 15 4 ⟨10, 10⟩).2.2.2 (by decide)⟩

/-- C8 counterexample: on a fence with interval 0 constructed at instant
0 the gate is OPEN at instant 0 (`block_until ≤ 0`), `allow` at 0 returns
`true`, yet a subsequent `allow` at the same instant 0 also returns
`true` — the gate was left open, refuting the claim for every interval. -/
theorem allow_recloses_cex :
    (Fence.from_duration 0 0).block_until ≤ 0 ∧
    (Fence.allow (Fence.from_duration 0 0) 0).1 = true ∧
    (Fence.allow (Fence.allow (Fence.from_duration 0 0) 0).2 0).1 = true := by
  decide

/-- C8 amended: for every positive interval, an `allow` call that finds
the gate OPEN (`block_until ≤ now`) returns `true` and immediately
re-closes the gate by advancing the watermark to `now + interval`, so the
gate is BLOCKED at that same instant and a subsequent `allow` at the same
instant returns `false`. -/
theorem allow_recloses_gate (f : Fence) (now : Nat) (hd : 0 < f.duration)
    (ho : f.block_until ≤ now) :
    (Fence.allow f now).1 = true ∧
    (Fence.allow f now).2.block_until = now + f.duration ∧
    now < (Fence.allow f now).2.block_until ∧
    (Fence.allow (Fence.allow f now).2 now).1 = false := by
  have hnl : ¬ now < f.block_until := Nat.not_lt.mpr ho
  refine ⟨by simp [Fence.allow, hnl], by simp [Fence.allow, hnl], ?_, ?_⟩
  · simp [Fence.allow, hnl]
    omega
  · have hlt : now < now + f.duration := by omega
    simp [Fence.allow, hnl, hlt]

/-- Witness for C8 amended: fence with interval 10 and watermark 10;
`allow` at 12 passes, closes the gate until 22, and a second call at 12
is denied. -/
theorem allow_recloses_gate_witness :
    (Fence.allow ⟨10, 10⟩ 12).1 = true ∧
    (Fence.allow (Fence.allow ⟨10, 10⟩ 12).2 12).1 = false :=
  ⟨(allow_recloses_gate ⟨10, 10⟩ 12 (by decide) (by decide)).1,
   (allow_recloses_gate ⟨10, 10⟩ 12 (by decide) (by decide)).2.2.2⟩

/-- Helper for C10: on a fence with zero interval whose watermark is at or
before `t`, any nondecreasing sequence of `allow` samples starting at or
after `t` yields `true` on every call. -/
theorem zero_interval_aux (ts : List Nat) :
    ∀ (f : Fence) (t : Nat), f.duration = 0 → f.block_until ≤ t →
      nondecreasingFrom t ts = true →
      (allowRun f ts).2 = ts.map (fun _ => true) := by
  induction ts with
  | nil => intro f t _ _ _; rfl
  | cons n rest ih =>
    intro f t hd hb hts
    simp only [nondecreasingFrom, Bool.and_eq_true, decide_eq_true_eq] at hts
    obtain ⟨htn, hrest⟩ := hts
    have hnl : ¬ n < f.block_until := Nat.not_lt.mpr (le_trans hb htn)
    have hfst : (Fence.allow f n).1 = true := by simp [Fence.allow, hnl]
    have hsnd : (Fence.allow f n).2 = { duration := f.duration, block_until := n + f.duration } := by
      simp [Fence.allow, hnl]
    have := ih (Fence.allow f n).2 n (by rw [hsnd]; exact hd)
      (by rw [hsnd]; simp [hd]) hrest
    simp [allowRun, hfst, this]

/-- Helper: a constant sample list is nondecreasing from any earlier
instant. -/
theorem nondecreasingFrom_replicate (n tc t : Nat) (h : tc ≤ t) :
    nondecreasingFrom tc (List.replicate n t) = true := by
  induction n generalizing tc with
  | zero => rfl
  | succ k ih => simp [List.replicate, nondecreasingFrom, h, ih t (le_refl t)]

/-- C10: on a fence with zero interval, an `allow` call whose sample is at
or after the watermark returns `true` and sets the watermark equal to that
sample; on a zero-interval fence constructed at `tc`, every nondecreasing
sequence of samples starting at or after `tc` yields all-`true` results —
in particular arbitrarily many consecutive calls at one same instant
`t ≥ tc` all return `true`. -/
theorem zero_interval_allow (f : Fence) (now tc t : Nat) (ts : List Nat)
    (hd : f.duration = 0) (hb : f.block_until ≤ now)
    (hts : nondecreasingFrom tc ts = true) (ht : tc ≤ t) :
    Fence.allow f now = (true, ⟨0, now⟩) ∧
    (allowRun (Fence.from_duration 0 tc) ts).2 = ts.map (fun _ => true) ∧
    (∀ k, (allowRun (Fence.from_duration 0 tc) (List.replicate k t)).2 =
      List.replicate k true) := by
  refine ⟨?_, ?_, fun k => ?_⟩
  · have hnl : ¬ now < f.block_until := Nat.not_lt.mpr hb
    simp [Fence.allow, hnl, hd]
  · exact zero_interval_aux ts (Fence.from_duration 0 tc) tc rfl
      (by simp [Fence.from_duration]) hts
  · have := zero_interval_aux (List.replicate k t) (Fence.from_duration 0 tc) tc rfl
      (by simp [Fence.from_duration]) (nondecreasingFrom_replicate k tc t ht)
    simpa using this

/-- Witness for C10: zero-interval fence with watermark 5; `allow` at 7
passes and sets the watermark to 7; on the zero-interval fence built at 5,
the samples 5, 5, 6 all pass, as do three consecutive calls at instant 5. -/
theorem zero_interval_allow_witness :
    Fence.allow ⟨0, 5⟩ 7 = (true, ⟨0, 7⟩) ∧
    (allowRun (Fence.from_duration 0 5) [5, 5, 6]).2 = [true, true, true] ∧
    (allowRun (Fence.from_duration 0 5) (List.replicate 3 5)).2 =
      List.replicate 3 true := by
  have h := zero_interval_allow ⟨0, 5⟩ 7 5 5 [5, 5, 6] rfl (by decide) (by decide)
    (by decide)
  exact ⟨h.1, by simpa using h.2.1, h.2.2 3⟩
